import Mathlib

/-!
Shallow embedding of the CRM order/stock core of `crm/schema.py`.

Entities (`Customer`, `Product`, `Order`) are records in list-backed stores;
`objects.get(id=...)` is `find?` by id, and Django `save()` of a fetched
instance writes the instance's in-memory field values back to every record
with that id.  A many-to-many `add(*products)` is set-semantic (duplicate
adds create a single association row), so an order's product set is stored
deduplicated in first-occurrence order.  `@transaction.atomic` is embedded
as: any storage fault inside the block returns the entry state (rollback),
and the `except` handler converts it into a failure response.  Decimal
prices are exact (never floating point); they are embedded as integers at a
fixed decimal scale (`Int`), which preserves the exact-sum arithmetic the
spec talks about.  String helpers (`lowerStr`, `stripStr`, `splitFirst`)
mirror Python `str.lower`, `str.strip` and the unique split of the email
regex at `@`, implemented over character lists.
-/

namespace CRM

/-- Python truthiness of an optional string argument: `None` and the empty
string are falsy, every other string is truthy. -/
def optTruthy (o : Option String) : Bool := o.getD "" != ""

/-- Python `str.lower` (ASCII case folding, as the data here is ASCII). -/
def lowerStr (s : String) : String := ⟨s.data.map Char.toLower⟩

/-- Python `str.strip`: drop leading and trailing whitespace. -/
def pystrip (cs : List Char) : List Char :=
  ((cs.dropWhile Char.isWhitespace).reverse.dropWhile Char.isWhitespace).reverse

/-- Python `str.strip` on a string. -/
def stripStr (s : String) : String := ⟨pystrip s.data⟩

/-- `ValidationUtils.validate_name`: fails when the name is empty or
all-whitespace (`not name or not name.strip()`). -/
def validate_name (n : String) : Bool := stripStr n != ""

/-- Character class `[a-zA-Z0-9._%+-]` of the email regex local part. -/
def isLocalChar (c : Char) : Bool :=
  c.isAlpha || c.isDigit || c == '.' || c == '_' || c == '%' || c == '+' || c == '-'

/-- Character class `[a-zA-Z0-9.-]` of the email regex domain part. -/
def isDomainChar (c : Char) : Bool :=
  c.isAlpha || c.isDigit || c == '.' || c == '-'

/-- The part of the email regex after the `@`: `[a-zA-Z0-9.-]+\.[a-zA-Z]{2,}$`,
decided by trying every split position for the final dot (equivalent to the
backtracking regex semantics). -/
def domainOk (cs : List Char) : Bool :=
  (List.range cs.length).any (fun i =>
    decide (0 < i) && (cs.getD i ' ' == '.') &&
    (cs.take i).all isDomainChar &&
    decide (i + 3 ≤ cs.length) &&
    (cs.drop (i + 1)).all Char.isAlpha)

/-- Split a character list at the first occurrence of `c`: the part before
it, and (when present) the part after it. -/
def splitFirst (c : Char) : List Char → List Char × Option (List Char)
  | [] => ([], none)
  | x :: xs =>
    if x == c then ([], some xs)
    else
      let r := splitFirst c xs
      (x :: r.1, r.2)

/-- `ValidationUtils.validate_email`: the anchored regex
`^[a-zA-Z0-9._%+-]+@[a-zA-Z0-9.-]+\.[a-zA-Z]{2,}$`.  Neither character
class contains `@`, so a match necessarily splits at the first `@`, with a
non-empty all-local-class part before it and a domain-dot-tld part (whose
classes also exclude `@`) after it. -/
def validate_email (e : String) : Bool :=
  match splitFirst '@' e.data with
  | (l, some rest) => !l.isEmpty && l.all isLocalChar && domainOk rest
  | (_, none) => false

/-- All characters are ASCII digits. -/
def allDigits (cs : List Char) : Bool := cs.all Char.isDigit

/-- The three optional separators `[- ]?` of the phone regexes. -/
def phoneSeps : List (List Char) := [[], ['-'], [' ']]

/-- Match `cs` against `\d{a}` followed by an optional separator, returning
the remainders to try (backtracking over separator choices). -/
def digitsThenSep (a : Nat) (cs : List Char) : List (List Char) :=
  if (cs.take a).length = a && allDigits (cs.take a) then
    (phoneSeps.filter (fun sep => ((cs.drop a).take sep.length) == sep)).map
      (fun sep => (cs.drop a).drop sep.length)
  else []

/-- Phone pattern 1: `^\+\d{1,3}[- ]?\d{6,14}$`. -/
def phonePat1 (s : String) : Bool :=
  match s.toList with
  | '+' :: rest =>
    [1, 2, 3].any (fun a =>
      (digitsThenSep a rest).any (fun t =>
        allDigits t && decide (6 ≤ t.length) && decide (t.length ≤ 14)))
  | _ => false

/-- Phone pattern 2: `^\d{3}[- ]?\d{3}[- ]?\d{4}$`. -/
def phonePat2 (s : String) : Bool :=
  (digitsThenSep 3 s.toList).any (fun r1 =>
    (digitsThenSep 3 r1).any (fun r2 =>
      decide (r2.length = 4) && allDigits r2))

/-- Phone pattern 3: `^\(\d{3}\) \d{3}-\d{4}$`. -/
def phonePat3 (s : String) : Bool :=
  match s.toList with
  | '(' :: rest =>
    (rest.take 3).length = 3 && allDigits (rest.take 3) &&
    ((rest.drop 3).take 2 == [')', ' ']) &&
    (let r := (rest.drop 3).drop 2
     allDigits (r.take 3) && (r.take 3).length = 3 &&
     (r.drop 3).take 1 == ['-'] &&
     decide (((r.drop 3).drop 1).length = 4) && allDigits ((r.drop 3).drop 1))
  | _ => false

/-- `ValidationUtils.validate_phone`: an absent/empty phone is valid,
otherwise at least one of the three patterns must match. -/
def validate_phone (p : String) : Bool :=
  if p == "" then true
  else phonePat1 p || phonePat2 p || phonePat3 p

/-- `ValidationUtils.validate_price`: strictly positive. -/
def validate_price (p : Int) : Bool := decide (0 < p)

/-- `ValidationUtils.validate_stock`: non-negative. -/
def validate_stock (s : Int) : Bool := decide (0 ≤ s)

/-- A `Customer` row: id, name, unique email, optional phone. -/
structure Customer where
  id : Nat
  name : String
  email : String
  phone : Option String
deriving DecidableEq

/-- A `Product` row: id, name, description, decimal price, integer stock. -/
structure Product where
  id : Nat
  name : String
  description : String
  price : Int
  stock : Int
deriving DecidableEq

/-- An `Order` row: id, owning customer, associated product ids (the
many-to-many set, deduplicated in first-add order), status string and the
total amount frozen at creation. -/
structure Order where
  id : Nat
  customerId : Nat
  productIds : List Nat
  status : String
  totalAmount : Int
deriving DecidableEq

/-- The persistent store: all customer, product and order rows. -/
structure State where
  customers : List Customer
  products : List Product
  orders : List Order
deriving DecidableEq

/-- `Customer.objects.get(id=i)`: first row with that id, if any. -/
def getCustomer (st : State) (i : Nat) : Option Customer :=
  st.customers.find? (fun c => c.id == i)

/-- `Product.objects.get(id=i)`: first row with that id, if any. -/
def getProduct (st : State) (i : Nat) : Option Product :=
  st.products.find? (fun p => p.id == i)

/-- `Order.objects.get(id=i)`: first row with that id, if any. -/
def getOrder (st : State) (i : Nat) : Option Order :=
  st.orders.find? (fun o => o.id == i)

/-- `product.save(update_fields=["stock"])` for a fetched instance of product
`i` whose in-memory stock is `s`: every row with that id gets stock `s`. -/
def setStock (st : State) (i : Nat) (s : Int) : State :=
  { st with products :=
      st.products.map (fun p => if p.id == i then { p with stock := s } else p) }

/-- `order.save(update_fields=["status"])`: every row with that id gets the
given status. -/
def setOrderStatus (st : State) (i : Nat) (s : String) : State :=
  { st with orders :=
      st.orders.map (fun o => if o.id == i then { o with status := s } else o) }

/-- `customer.save()` of a fetched-and-modified instance `c` of customer `i`:
rows with that id are overwritten with `c`. -/
def saveCustomer (st : State) (i : Nat) (c : Customer) : State :=
  { st with customers :=
      st.customers.map (fun x => if x.id == i then c else x) }

/-- A fresh auto-increment primary key: one more than the largest id in use. -/
def freshId (ids : List Nat) : Nat := ids.foldr (fun a b => max a b) 0 + 1

/-- Fresh order primary key. -/
def freshOrderId (st : State) : Nat := freshId (st.orders.map (fun o => o.id))

/-- Fresh customer primary key. -/
def freshCustomerId (st : State) : Nat := freshId (st.customers.map (fun c => c.id))

/-- Append `x` unless already present (one step of set-semantic M2M `add`). -/
def addUnique (l : List Nat) (x : Nat) : List Nat := if x ∈ l then l else l ++ [x]

/-- `order.products.add(*products)`: the resulting association set, i.e. the
input ids deduplicated keeping first occurrences. -/
def dedupFirst (l : List Nat) : List Nat := l.foldl addUnique []

/-- Error taxonomy of the spec, one constructor per distinct failure message
site in `crm/schema.py`. -/
inductive ErrKind where
  | notFoundCustomer
  | notFoundProduct
  | notFoundOrder
  | invalidInput
  | outOfStock
  | invalidTransition
  | invalidStock
  | conflict
  | storageFault
deriving DecidableEq

/-- `CustomerResponse`: success flag, error kind of the failure message (if
any), and the returned customer payload. -/
structure CustomerResponse where
  success : Bool
  error : Option ErrKind
  customer : Option Customer
deriving DecidableEq

/-- `ProductResponse`: success flag, error kind, product payload. -/
structure ProductResponse where
  success : Bool
  error : Option ErrKind
  product : Option Product
deriving DecidableEq

/-- `OrderResponse`: success flag, error kind, order payload. -/
structure OrderResponse where
  success : Bool
  error : Option ErrKind
  order : Option Order
deriving DecidableEq

/-- Input of `create_customer`. -/
structure CustomerInput where
  name : String
  email : String
  phone : Option String

/-- The customer row persisted by `CreateCustomer.mutate`: name stripped,
email lowercased, falsy phone stored as null. -/
def newCustomer (st : State) (inp : CustomerInput) : Customer :=
  { id := freshCustomerId st, name := stripStr inp.name,
    email := lowerStr inp.email,
    phone := if optTruthy inp.phone then inp.phone else none }

/-- `CreateCustomer.mutate`.  Note the duplicate-email check at
`schema.py:219` filters on the RAW input email
(`Customer.objects.filter(email=input.email)`), while the stored row
lowercases it (`email=input.email.lower()`); the bulk variant at
`schema.py:286` filters on the lowercased email instead. -/
def createCustomer (st : State) (inp : CustomerInput) : CustomerResponse × State :=
  if !validate_name inp.name then (⟨false, some .invalidInput, none⟩, st)
  else if !validate_email inp.email then (⟨false, some .invalidInput, none⟩, st)
  else if optTruthy inp.phone && !validate_phone (inp.phone.getD "") then
    (⟨false, some .invalidInput, none⟩, st)
  else if st.customers.any (fun c => c.email == inp.email) then
    (⟨false, some .conflict, none⟩, st)
  else
    (⟨true, none, some (newCustomer st inp)⟩,
      { st with customers := newCustomer st inp :: st.customers })

/-- Input of `create_order`. -/
structure OrderInput where
  customerId : Nat
  productIds : List Nat
  status : Option String

/-- Injected storage fault for `create_order`: none, at `order.save()`, or at
the k-th `product.save()` of the decrement loop. -/
inductive Fault where
  | nofault
  | orderSave
  | productSave : Nat → Fault
deriving DecidableEq

/-- The validation loop of `CreateOrder.mutate` (`schema.py:397-415`): fetch a
fresh instance per id in input order, fail on a missing product or on
`stock < 1`, and accumulate the instances and the running total.  No row is
mutated here, so every fetch sees the entry state. -/
def fetchProducts (st : State) : List Nat → Except ErrKind (List Product × Int)
  | [] => Except.ok ([], 0)
  | pid :: rest =>
    match getProduct st pid with
    | none => Except.error ErrKind.notFoundProduct
    | some p =>
      if p.stock < 1 then Except.error ErrKind.outOfStock
      else
        match fetchProducts st rest with
        | Except.error e => Except.error e
        | Except.ok (ps, t) => Except.ok (p :: ps, p.price + t)

/-- The stock-decrement loop of `CreateOrder.mutate` (`schema.py:429-431`):
each fetched instance writes back its own snapshot stock minus one. -/
def applyDecs (st : State) (ps : List Product) : State :=
  ps.foldl (fun s p => setStock s p.id (p.stock - 1)) st

/-- `input.status if input.status else "pending"` (empty string is falsy). -/
def defaultStatus (o : Option String) : String :=
  match o with
  | some s => if s == "" then "pending" else s
  | none => "pending"

/-- Whether the injected fault fires inside a decrement loop of `n` saves. -/
def decFaultHits (fault : Fault) (n : Nat) : Bool :=
  match fault with
  | Fault.productSave k => decide (k < n)
  | _ => false

/-- The order row persisted by `CreateOrder.mutate`: fresh id, the input
customer, the set-semantic product associations in first-add order, the
defaulted status and the accumulated total. -/
def newOrder (st : State) (inp : OrderInput) (ps : List Product) (total : Int) : Order :=
  { id := freshOrderId st, customerId := inp.customerId,
    productIds := dedupFirst (ps.map (fun p => p.id)),
    status := defaultStatus inp.status, totalAmount := total }

/-- `CreateOrder.mutate` under `@transaction.atomic`: resolve the customer,
require a non-empty id list, run the validation loop, then persist the order,
associate the products (set-semantic) and run the decrement loop.  A storage
fault anywhere in the persistence phase raises, the transaction rolls back to
the entry state, and the handler returns a failure response. -/
def createOrder (fault : Fault) (st : State) (inp : OrderInput) :
    OrderResponse × State :=
  match getCustomer st inp.customerId with
  | none => (⟨false, some .notFoundCustomer, none⟩, st)
  | some _ =>
    if inp.productIds == [] then (⟨false, some .invalidInput, none⟩, st)
    else
      match fetchProducts st inp.productIds with
      | Except.error e => (⟨false, some e, none⟩, st)
      | Except.ok (ps, total) =>
        if fault == Fault.orderSave then (⟨false, some .storageFault, none⟩, st)
        else if decFaultHits fault ps.length then
          (⟨false, some .storageFault, none⟩, st)
        else
          (⟨true, none, some (newOrder st inp ps total)⟩,
            applyDecs { st with orders := newOrder st inp ps total :: st.orders } ps)

/-- The in-memory name update of `UpdateCustomer.mutate`: applied only when
the argument is truthy, and stored stripped. -/
def updName (c : Customer) (nm : Option String) : Customer :=
  if optTruthy nm then { c with name := stripStr (nm.getD "") } else c

/-- The in-memory phone update of `UpdateCustomer.mutate`: applied only when
the argument is truthy. -/
def updPhone (c : Customer) (ph : Option String) : Customer :=
  if optTruthy ph then { c with phone := some (ph.getD "") } else c

/-- `UpdateCustomer.mutate`: fetch, then for each truthy argument validate and
set the in-memory field, then `save()` the instance. -/
def updateCustomer (st : State) (cid : Nat) (nm ph : Option String) :
    CustomerResponse × State :=
  match getCustomer st cid with
  | none => (⟨false, some .notFoundCustomer, none⟩, st)
  | some c =>
    if optTruthy nm && !validate_name (nm.getD "") then
      (⟨false, some .invalidInput, none⟩, st)
    else if optTruthy ph && !validate_phone (ph.getD "") then
      (⟨false, some .invalidInput, none⟩, st)
    else
      (⟨true, none, some (updPhone (updName c nm) ph)⟩,
        saveCustomer st cid (updPhone (updName c nm) ph))

/-- `UpdateProductStock.mutate` (`adjust_stock`): fetch, compute
`new_stock = stock + delta`, fail if negative, else persist it. -/
def updateProductStock (st : State) (pid : Nat) (delta : Int) :
    ProductResponse × State :=
  match getProduct st pid with
  | none => (⟨false, some .notFoundProduct, none⟩, st)
  | some p =>
    if p.stock + delta < 0 then (⟨false, some .invalidStock, none⟩, st)
    else (⟨true, none, some { p with stock := p.stock + delta }⟩,
      setStock st pid (p.stock + delta))

/-- One step of the restock loop of `CancelOrder.mutate`: fetch the current
row and write back its stock plus one. -/
def restockStep (st : State) (pid : Nat) : State :=
  match getProduct st pid with
  | none => st
  | some p => setStock st pid (p.stock + 1)

/-- The restock loop of `CancelOrder.mutate` (`schema.py:585-587`), iterating
the order's associated product set. -/
def restock (st : State) (pids : List Nat) : State := pids.foldl restockStep st

/-- `CancelOrder.mutate` under `@transaction.atomic`: fetch the order, reject
`cancelled` and `delivered` statuses, otherwise set status to `cancelled` and
restock one unit per associated product. -/
def cancelOrder (st : State) (oid : Nat) : OrderResponse × State :=
  match getOrder st oid with
  | none => (⟨false, some .notFoundOrder, none⟩, st)
  | some o =>
    if o.status == "cancelled" then (⟨false, some .invalidTransition, none⟩, st)
    else if o.status == "delivered" then (⟨false, some .invalidTransition, none⟩, st)
    else
      (⟨true, none, some { o with status := "cancelled" }⟩,
        restock (setOrderStatus st oid "cancelled") o.productIds)

/-- A stock-touching mutation, for sequencing. -/
inductive Mut where
  | create : Fault → OrderInput → Mut
  | cancel : Nat → Mut
  | adjust : Nat → Int → Mut

/-- State after one mutation (its response discarded). -/
def applyMut (st : State) (m : Mut) : State :=
  match m with
  | Mut.create f inp => (createOrder f st inp).2
  | Mut.cancel oid => (cancelOrder st oid).2
  | Mut.adjust pid d => (updateProductStock st pid d).2

/-- The core invariant: every product row has non-negative stock. -/
def StockInv (st : State) : Prop := ∀ p ∈ st.products, 0 ≤ p.stock

/-- A product with every field but stock fixed, for stating that an
operation may change only the stock of a row. -/
def stripStock (p : Product) : Product := { p with stock := 0 }

/-- Example customer (id 1, email already lowercase). -/
def exCustomer : Customer := { id := 1, name := "Alice", email := "a@x.com", phone := none }

/-- Example product with a given stock level. -/
def exProduct (s : Int) : Product :=
  { id := 1, name := "Widget", description := "", price := 10, stock := s }

/-- Example store: one customer, one product at the given stock, no orders. -/
def exState (s : Int) : State :=
  { customers := [exCustomer], products := [exProduct s], orders := [] }

/-- Example store holding one delivered order. -/
def exDeliveredState : State :=
  { customers := [exCustomer], products := [exProduct 1],
    orders := [{ id := 1, customerId := 1, productIds := [1],
                 status := "delivered", totalAmount := 10 }] }

/-- Example store with two customers, for frame checks. -/
def exTwoCustState : State :=
  { customers := [exCustomer,
      { id := 2, name := "Carol", email := "c@x.com", phone := some "123-456-7890" }],
    products := [exProduct 3], orders := [] }

end CRM

namespace CRM

theorem getProduct_id (st : State) (i : Nat) (p : Product)
    (h : getProduct st i = some p) : p.id = i := by
  simpa using List.find?_some h

theorem getProduct_setStock (st : State) (i j : Nat) (s : Int) :
    getProduct (setStock st i s) j =
      if j = i then (getProduct st i).map (fun p => { p with stock := s })
      else getProduct st j := by
  unfold getProduct setStock
  simp only [List.find?_map]
  have hcomp : ((fun p : Product => p.id == j) ∘
      (fun p : Product => if p.id == i then { p with stock := s } else p)) =
      (fun p : Product => p.id == j) := by
    funext p
    by_cases h : (p.id == i) = true
    · have he : p.id = i := by simpa using h
      simp [he]
    · have he : ¬ p.id = i := by simpa using h
      simp [he]
  rw [hcomp]
  by_cases hij : j = i
  · subst hij
    cases hfind : List.find? (fun p : Product => p.id == j) st.products with
    | none => simp
    | some p =>
      have hp : p.id = j := by simpa using List.find?_some hfind
      simp [hp]
  · cases hfind : List.find? (fun p : Product => p.id == j) st.products with
    | none => simp [hij]
    | some p =>
      have hp : p.id = j := by simpa using List.find?_some hfind
      have hne : ¬ p.id = i := by rw [hp]; exact hij
      simp [hij, hne]

theorem getOrder_setOrderStatus (st : State) (i j : Nat) (s : String) :
    getOrder (setOrderStatus st i s) j =
      if j = i then (getOrder st i).map (fun o => { o with status := s })
      else getOrder st j := by
  unfold getOrder setOrderStatus
  simp only [List.find?_map]
  have hcomp : ((fun o : Order => o.id == j) ∘
      (fun o : Order => if o.id == i then { o with status := s } else o)) =
      (fun o : Order => o.id == j) := by
    funext o
    by_cases h : (o.id == i) = true
    · have he : o.id = i := by simpa using h
      simp [he]
    · have he : ¬ o.id = i := by simpa using h
      simp [he]
  rw [hcomp]
  by_cases hij : j = i
  · subst hij
    cases hfind : List.find? (fun o : Order => o.id == j) st.orders with
    | none => simp
    | some o =>
      have hp : o.id = j := by simpa using List.find?_some hfind
      simp [hp]
  · cases hfind : List.find? (fun o : Order => o.id == j) st.orders with
    | none => simp [hij]
    | some o =>
      have hp : o.id = j := by simpa using List.find?_some hfind
      have hne : ¬ o.id = i := by rw [hp]; exact hij
      simp [hij, hne]

theorem getCustomer_saveCustomer (st : State) (i j : Nat) (c : Customer)
    (hc : c.id = i) :
    getCustomer (saveCustomer st i c) j =
      if j = i then (getCustomer st i).map (fun _ => c)
      else getCustomer st j := by
  unfold getCustomer saveCustomer
  simp only [List.find?_map]
  have hcomp : ((fun x : Customer => x.id == j) ∘
      (fun x : Customer => if x.id == i then c else x)) =
      (fun x : Customer => x.id == j) := by
    funext x
    by_cases h : (x.id == i) = true
    · have he : x.id = i := by simpa using h
      simp [he, hc]
    · have he : ¬ x.id = i := by simpa using h
      simp [he]
  rw [hcomp]
  by_cases hij : j = i
  · subst hij
    cases hfind : List.find? (fun x : Customer => x.id == j) st.customers with
    | none => simp
    | some x =>
      have hp : x.id = j := by simpa using List.find?_some hfind
      simp [hp]
  · cases hfind : List.find? (fun x : Customer => x.id == j) st.customers with
    | none => simp [hij]
    | some x =>
      have hp : x.id = j := by simpa using List.find?_some hfind
      have hne : ¬ x.id = i := by rw [hp]; exact hij
      simp [hij, hne]

theorem setStock_orders (st : State) (i : Nat) (s : Int) :
    (setStock st i s).orders = st.orders := rfl

theorem setStock_customers (st : State) (i : Nat) (s : Int) :
    (setStock st i s).customers = st.customers := rfl

theorem setOrderStatus_products (st : State) (i : Nat) (s : String) :
    (setOrderStatus st i s).products = st.products := rfl

theorem setOrderStatus_customers (st : State) (i : Nat) (s : String) :
    (setOrderStatus st i s).customers = st.customers := rfl

theorem getProduct_congr (st st2 : State) (h : st.products = st2.products)
    (j : Nat) : getProduct st j = getProduct st2 j := by
  unfold getProduct; rw [h]

theorem getOrder_congr (st st2 : State) (h : st.orders = st2.orders)
    (j : Nat) : getOrder st j = getOrder st2 j := by
  unfold getOrder; rw [h]

theorem applyDecs_orders (ps : List Product) :
    ∀ st : State, (applyDecs st ps).orders = st.orders := by
  induction ps with
  | nil => intro st; rfl
  | cons p l ih =>
    intro st
    have : applyDecs st (p :: l) = applyDecs (setStock st p.id (p.stock - 1)) l := rfl
    rw [this, ih]
    rfl

theorem applyDecs_customers (ps : List Product) :
    ∀ st : State, (applyDecs st ps).customers = st.customers := by
  induction ps with
  | nil => intro st; rfl
  | cons p l ih =>
    intro st
    have : applyDecs st (p :: l) = applyDecs (setStock st p.id (p.stock - 1)) l := rfl
    rw [this, ih]
    rfl

theorem restockStep_orders (st : State) (i : Nat) :
    (restockStep st i).orders = st.orders := by
  unfold restockStep
  cases getProduct st i <;> rfl

theorem restockStep_customers (st : State) (i : Nat) :
    (restockStep st i).customers = st.customers := by
  unfold restockStep
  cases getProduct st i <;> rfl

theorem restock_orders (ids : List Nat) :
    ∀ st : State, (restock st ids).orders = st.orders := by
  induction ids with
  | nil => intro st; rfl
  | cons i l ih =>
    intro st
    have : restock st (i :: l) = restock (restockStep st i) l := rfl
    rw [this, ih, restockStep_orders]

theorem restock_customers (ids : List Nat) :
    ∀ st : State, (restock st ids).customers = st.customers := by
  induction ids with
  | nil => intro st; rfl
  | cons i l ih =>
    intro st
    have : restock st (i :: l) = restock (restockStep st i) l := rfl
    rw [this, ih, restockStep_customers]

theorem le_foldr_max (x : Nat) (l : List Nat) (h : x ∈ l) :
    x ≤ l.foldr (fun a b => max a b) 0 := by
  induction l with
  | nil => cases h
  | cons a l ih =>
    rcases List.mem_cons.mp h with h1 | h1
    · subst h1; exact le_max_left _ _
    · exact le_trans (ih h1) (le_max_right _ _)

theorem freshOrderId_not_mem (st : State) (o : Order) (h : o ∈ st.orders) :
    o.id ≠ freshOrderId st := by
  have hx : o.id ∈ st.orders.map (fun x => x.id) :=
    List.mem_map.mpr ⟨o, h, rfl⟩
  have := le_foldr_max o.id (st.orders.map (fun x => x.id)) hx
  unfold freshOrderId freshId
  omega

end CRM

namespace CRM

theorem fetchProducts_ok (st : State) :
    ∀ (pids : List Nat) (ps : List Product) (t : Int),
      fetchProducts st pids = Except.ok (ps, t) →
      ps.map (fun p => p.id) = pids ∧
      t = (ps.map (fun p => p.price)).sum ∧
      ∀ p ∈ ps, getProduct st p.id = some p ∧ 1 ≤ p.stock := by
  intro pids
  induction pids with
  | nil =>
    intro ps t h
    unfold fetchProducts at h
    injection h with h1
    injection h1 with h2 h3
    subst h2; subst h3
    simp
  | cons pid rest ih =>
    intro ps t h
    cases hg : getProduct st pid with
    | none =>
      simp only [fetchProducts, hg] at h
      exact absurd h (by simp)
    | some p =>
      simp only [fetchProducts, hg] at h
      by_cases hs : p.stock < 1
      · rw [if_pos hs] at h; exact absurd h (by simp)
      · rw [if_neg hs] at h
        cases hf : fetchProducts st rest with
        | error e => rw [hf] at h; exact absurd h (by simp)
        | ok pr =>
          obtain ⟨ps0, t0⟩ := pr
          rw [hf] at h
          injection h with h1
          injection h1 with h2 h3
          subst h2; subst h3
          obtain ⟨hmap, hsum, hall⟩ := ih ps0 t0 hf
          have hpid : p.id = pid := getProduct_id st pid p hg
          refine ⟨by simp [hmap, hpid], by simp [hsum], ?_⟩
          intro q hq
          rcases List.mem_cons.mp hq with h1 | h1
          · subst h1
            exact ⟨by rw [hpid]; exact hg, by omega⟩
          · exact hall q h1

theorem mem_addUnique (l : List Nat) (x y : Nat) :
    y ∈ addUnique l x ↔ y ∈ l ∨ y = x := by
  unfold addUnique
  by_cases h : x ∈ l
  · rw [if_pos h]
    constructor
    · exact Or.inl
    · intro h2
      rcases h2 with h2 | h2
      · exact h2
      · exact h2 ▸ h
  · rw [if_neg h]
    simp [List.mem_append]

theorem nodup_addUnique (l : List Nat) (x : Nat) (h : l.Nodup) :
    (addUnique l x).Nodup := by
  unfold addUnique
  by_cases hx : x ∈ l
  · rw [if_pos hx]; exact h
  · rw [if_neg hx]
    simp [List.nodup_append, h, hx]

theorem foldl_addUnique_mem (l : List Nat) :
    ∀ (acc : List Nat) (y : Nat),
      (y ∈ l.foldl addUnique acc ↔ y ∈ acc ∨ y ∈ l) := by
  induction l with
  | nil => intro acc y; simp
  | cons x l ih =>
    intro acc y
    have : (x :: l).foldl addUnique acc = l.foldl addUnique (addUnique acc x) := rfl
    rw [this, ih (addUnique acc x) y, mem_addUnique]
    simp [List.mem_cons]
    tauto

theorem foldl_addUnique_nodup (l : List Nat) :
    ∀ acc : List Nat, acc.Nodup → (l.foldl addUnique acc).Nodup := by
  induction l with
  | nil => intro acc h; exact h
  | cons x l ih =>
    intro acc h
    exact ih (addUnique acc x) (nodup_addUnique acc x h)

theorem mem_dedupFirst (l : List Nat) (y : Nat) :
    y ∈ dedupFirst l ↔ y ∈ l := by
  unfold dedupFirst
  rw [foldl_addUnique_mem]
  simp

theorem nodup_dedupFirst (l : List Nat) : (dedupFirst l).Nodup :=
  foldl_addUnique_nodup l [] List.nodup_nil

theorem StockInv_setStock (st : State) (i : Nat) (s : Int)
    (h : StockInv st) (hs : 0 ≤ s) : StockInv (setStock st i s) := by
  intro p hp
  unfold setStock at hp
  simp only [List.mem_map] at hp
  obtain ⟨q, hq, hfq⟩ := hp
  by_cases hqi : (q.id == i) = true
  · rw [if_pos hqi] at hfq
    rw [← hfq]
    exact hs
  · rw [if_neg hqi] at hfq
    rw [← hfq]
    exact h q hq

theorem StockInv_applyDecs (ps : List Product) :
    ∀ st : State, StockInv st → (∀ p ∈ ps, 1 ≤ p.stock) →
      StockInv (applyDecs st ps) := by
  induction ps with
  | nil => intro st h _; exact h
  | cons p l ih =>
    intro st h hps
    have hstep : applyDecs st (p :: l) = applyDecs (setStock st p.id (p.stock - 1)) l := rfl
    rw [hstep]
    refine ih _ (StockInv_setStock st p.id (p.stock - 1) h ?_) ?_
    · have := hps p (List.mem_cons_self p l)
      omega
    · intro q hq
      exact hps q (List.mem_cons_of_mem p hq)

theorem StockInv_restock (ids : List Nat) :
    ∀ st : State, StockInv st → StockInv (restock st ids) := by
  induction ids with
  | nil => intro st h; exact h
  | cons i l ih =>
    intro st h
    have hstep : restock st (i :: l) = restock (restockStep st i) l := rfl
    rw [hstep]
    refine ih _ ?_
    unfold restockStep
    cases hg : getProduct st i with
    | none => exact h
    | some p =>
      have hmem : p ∈ st.products := List.mem_of_find?_eq_some hg
      have := h p hmem
      exact StockInv_setStock st i (p.stock + 1) h (by omega)

theorem applyDecs_get (st0 : State) :
    ∀ (ps : List Product) (st : State),
      (∀ p ∈ ps, getProduct st0 p.id = some p) →
      (∀ k, (getProduct st k).map stripStock = (getProduct st0 k).map stripStock) →
      ∀ j, getProduct (applyDecs st ps) j =
        if j ∈ ps.map (fun p => p.id) then
          (getProduct st0 j).map (fun p => { p with stock := p.stock - 1 })
        else getProduct st j := by
  intro ps
  induction ps with
  | nil =>
    intro st _ _ j
    simp [applyDecs]
  | cons a l ih =>
    intro st hsnap hsh j
    have ha0 : getProduct st0 a.id = some a := hsnap a (List.mem_cons_self a l)
    have happ : applyDecs st (a :: l) = applyDecs (setStock st a.id (a.stock - 1)) l := rfl
    have hsh1 : ∀ k, (getProduct (setStock st a.id (a.stock - 1)) k).map stripStock =
        (getProduct st0 k).map stripStock := by
      intro k
      rw [getProduct_setStock]
      by_cases hk : k = a.id
      · rw [if_pos hk, Option.map_map]
        have hfun : (stripStock ∘ fun p : Product => { p with stock := a.stock - 1 }) = stripStock := by
          funext q
          rfl
        rw [hfun, hk]
        exact hsh a.id
      · rw [if_neg hk]
        exact hsh k
    have hrec := ih (setStock st a.id (a.stock - 1))
      (fun q hq => hsnap q (List.mem_cons_of_mem a hq)) hsh1 j
    rw [happ, hrec]
    by_cases hjl : j ∈ l.map (fun p => p.id)
    · rw [if_pos hjl, if_pos (by rw [List.map_cons]; exact List.mem_cons_of_mem _ hjl)]
    · by_cases hja : j = a.id
      · rw [if_neg hjl,
          if_pos (by rw [List.map_cons, hja]; exact List.mem_cons_self _ _),
          getProduct_setStock, if_pos hja, hja]
        have hq := hsh a.id
        cases hgq : getProduct st a.id with
        | none =>
          rw [hgq, ha0] at hq
          exact absurd hq (by simp [stripStock])
        | some q =>
          rw [hgq, ha0] at hq
          rw [ha0]
          have hq2 : stripStock q = stripStock a := by simpa using hq
          obtain ⟨qi, qn, qd, qp, qs⟩ := q
          obtain ⟨ai, an, ad, ap, as2⟩ := a
          simp only [stripStock, Product.mk.injEq] at hq2
          obtain ⟨e1, e2, e3, e4, _⟩ := hq2
          subst e1; subst e2; subst e3; subst e4
          rfl
      · rw [if_neg hjl,
          if_neg (by
            rw [List.map_cons]
            intro hm
            rcases List.mem_cons.mp hm with hm1 | hm1
            · exact hja hm1
            · exact hjl hm1),
          getProduct_setStock, if_neg hja]

theorem restock_get (ids : List Nat) :
    ∀ st : State, ids.Nodup →
      ∀ j, getProduct (restock st ids) j =
        if j ∈ ids then (getProduct st j).map (fun p => { p with stock := p.stock + 1 })
        else getProduct st j := by
  induction ids with
  | nil =>
    intro st _ j
    simp [restock]
  | cons i l ih =>
    intro st hnd j
    obtain ⟨hi, hnd2⟩ := List.nodup_cons.mp hnd
    have hstep : restock st (i :: l) = restock (restockStep st i) l := rfl
    rw [hstep, ih _ hnd2 j]
    by_cases hj : j ∈ l
    · have hji : ¬ j = i := fun he => hi (he ▸ hj)
      have hunch : getProduct (restockStep st i) j = getProduct st j := by
        unfold restockStep
        cases hg : getProduct st i with
        | none => rfl
        | some p => rw [getProduct_setStock, if_neg hji]
      rw [if_pos hj, hunch, if_pos (by simp [List.mem_cons, hj])]
    · by_cases hji : j = i
      · subst hji
        rw [if_neg hj, if_pos (List.mem_cons_self _ _)]
        unfold restockStep
        cases hg : getProduct st j with
        | none => simp [hg]
        | some p =>
          simp [hg, getProduct_setStock]
      · rw [if_neg hj, if_neg (by simp [List.mem_cons, hji, hj])]
        unfold restockStep
        cases hg : getProduct st i with
        | none => rfl
        | some p => rw [getProduct_setStock, if_neg hji]

end CRM

namespace CRM

theorem createOrder_cases (fault : Fault) (st : State) (inp : OrderInput)
    (r : OrderResponse) (st2 : State)
    (h : createOrder fault st inp = (r, st2)) :
    (r.success = false ∧ st2 = st) ∨
    (∃ ps total,
      fetchProducts st inp.productIds = Except.ok (ps, total) ∧
      r = ⟨true, none, some (newOrder st inp ps total)⟩ ∧
      st2 = applyDecs { st with orders := newOrder st inp ps total :: st.orders } ps) := by
  cases hc : getCustomer st inp.customerId with
  | none =>
    simp only [createOrder, hc] at h
    injection h with h1 h2
    exact Or.inl ⟨by rw [← h1], h2.symm⟩
  | some c =>
    simp only [createOrder, hc] at h
    by_cases he : (inp.productIds == []) = true
    · rw [if_pos he] at h
      injection h with h1 h2
      exact Or.inl ⟨by rw [← h1], h2.symm⟩
    · rw [if_neg he] at h
      cases hf : fetchProducts st inp.productIds with
      | error e =>
        rw [hf] at h
        injection h with h1 h2
        exact Or.inl ⟨by rw [← h1], h2.symm⟩
      | ok pr =>
        obtain ⟨ps, total⟩ := pr
        simp only [hf] at h
        by_cases ho : (fault == Fault.orderSave) = true
        · rw [if_pos ho] at h
          injection h with h1 h2
          exact Or.inl ⟨by rw [← h1], h2.symm⟩
        · rw [if_neg ho] at h
          by_cases hd : (decFaultHits fault ps.length) = true
          · rw [if_pos hd] at h
            injection h with h1 h2
            exact Or.inl ⟨by rw [← h1], h2.symm⟩
          · rw [if_neg hd] at h
            injection h with h1 h2
            exact Or.inr ⟨ps, total, rfl, h1.symm, h2.symm⟩

theorem cancelOrder_cases (st : State) (oid : Nat)
    (r : OrderResponse) (st2 : State)
    (h : cancelOrder st oid = (r, st2)) :
    (r.success = false ∧ st2 = st) ∨
    (∃ o, getOrder st oid = some o ∧
      ¬ o.status = "cancelled" ∧ ¬ o.status = "delivered" ∧
      r = ⟨true, none, some { o with status := "cancelled" }⟩ ∧
      st2 = restock (setOrderStatus st oid "cancelled") o.productIds) := by
  cases hg : getOrder st oid with
  | none =>
    simp only [cancelOrder, hg] at h
    injection h with h1 h2
    exact Or.inl ⟨by rw [← h1], h2.symm⟩
  | some o =>
    simp only [cancelOrder, hg] at h
    by_cases h1 : (o.status == "cancelled") = true
    · rw [if_pos h1] at h
      injection h with ha hb
      exact Or.inl ⟨by rw [← ha], hb.symm⟩
    · rw [if_neg h1] at h
      by_cases h2 : (o.status == "delivered") = true
      · rw [if_pos h2] at h
        injection h with ha hb
        exact Or.inl ⟨by rw [← ha], hb.symm⟩
      · rw [if_neg h2] at h
        injection h with ha hb
        refine Or.inr ⟨o, rfl, ?_, ?_, ha.symm, hb.symm⟩
        · simpa using h1
        · simpa using h2

theorem createOrder_StockInv (fault : Fault) (st : State) (inp : OrderInput)
    (h : StockInv st) : StockInv (createOrder fault st inp).2 := by
  rcases hco : createOrder fault st inp with ⟨r, st2⟩
  rcases createOrder_cases fault st inp r st2 hco with ⟨_, h2⟩ | ⟨ps, total, hf, _, h2⟩
  · show StockInv st2
    rw [h2]; exact h
  · show StockInv st2
    rw [h2]
    obtain ⟨_, _, hall⟩ := fetchProducts_ok st inp.productIds ps total hf
    exact StockInv_applyDecs ps _ h (fun p hp => (hall p hp).2)

theorem cancelOrder_StockInv (st : State) (oid : Nat)
    (h : StockInv st) : StockInv (cancelOrder st oid).2 := by
  rcases hco : cancelOrder st oid with ⟨r, st2⟩
  rcases cancelOrder_cases st oid r st2 hco with ⟨_, h2⟩ | ⟨o, _, _, _, _, h2⟩
  · show StockInv st2
    rw [h2]; exact h
  · show StockInv st2
    rw [h2]
    exact StockInv_restock o.productIds _ h

theorem updateProductStock_cases (st : State) (pid : Nat) (delta : Int)
    (r : ProductResponse) (st2 : State)
    (h : updateProductStock st pid delta = (r, st2)) :
    (r.success = false ∧ st2 = st) ∨
    (∃ p, getProduct st pid = some p ∧ 0 ≤ p.stock + delta ∧
      r = ⟨true, none, some { p with stock := p.stock + delta }⟩ ∧
      st2 = setStock st pid (p.stock + delta)) := by
  cases hg : getProduct st pid with
  | none =>
    simp only [updateProductStock, hg] at h
    injection h with h1 h2
    exact Or.inl ⟨by rw [← h1], h2.symm⟩
  | some p =>
    simp only [updateProductStock, hg] at h
    by_cases hneg : p.stock + delta < 0
    · rw [if_pos hneg] at h
      injection h with h1 h2
      exact Or.inl ⟨by rw [← h1], h2.symm⟩
    · rw [if_neg hneg] at h
      injection h with h1 h2
      exact Or.inr ⟨p, rfl, by omega, h1.symm, h2.symm⟩

theorem adjust_StockInv (st : State) (pid : Nat) (delta : Int)
    (h : StockInv st) : StockInv (updateProductStock st pid delta).2 := by
  rcases hco : updateProductStock st pid delta with ⟨r, st2⟩
  rcases updateProductStock_cases st pid delta r st2 hco with ⟨_, h2⟩ | ⟨p, _, hge, _, h2⟩
  · show StockInv st2
    rw [h2]; exact h
  · show StockInv st2
    rw [h2]
    exact StockInv_setStock st pid _ h hge

/-- Claim C1: the spec demands that `create_order(c1, [p1, p1])` decrement
stock by 2 when stock is at least 2, and fail `OutOfStock` without
decrementing when stock is below 2.  Evaluating `CreateOrder.mutate` at those
inputs shows the code does neither: each loop iteration fetches a fresh
instance whose snapshot is the entry stock, so with stock 1 both stock checks
pass and the call succeeds (total 2 * price, final stock 0), and with stock 2
both saves write the same snapshot-minus-one value, a net decrement of 1. -/
theorem c1_duplicate_ids_code_behavior :
    ((createOrder Fault.nofault (exState 1)
        { customerId := 1, productIds := [1, 1], status := none }).1.success = true ∧
      ((createOrder Fault.nofault (exState 1)
        { customerId := 1, productIds := [1, 1], status := none }).2.products.map
          (fun p => p.stock)) = [0] ∧
      (createOrder Fault.nofault (exState 1)
        { customerId := 1, productIds := [1, 1], status := none }).1.order.map
          (fun o => o.totalAmount) = some 20) ∧
    ((createOrder Fault.nofault (exState 2)
        { customerId := 1, productIds := [1, 1], status := none }).1.success = true ∧
      ((createOrder Fault.nofault (exState 2)
        { customerId := 1, productIds := [1, 1], status := none }).2.products.map
          (fun p => p.stock)) = [1]) := by
  decide

/-- Claim C2: `create_order` is all-or-nothing.  Whatever the failure point
(customer resolution, empty product list, product resolution, stock check, or
an injected storage fault at order persistence or at any stock-decrement
save), a failed call leaves the store exactly as it was at entry. -/
theorem c2_createOrder_failure_rollback (fault : Fault) (st : State)
    (inp : OrderInput) (r : OrderResponse) (st2 : State)
    (h : createOrder fault st inp = (r, st2)) (hfail : r.success = false) :
    st2 = st := by
  rcases createOrder_cases fault st inp r st2 h with ⟨_, h2⟩ | ⟨ps, total, _, hr, _⟩
  · exact h2
  · rw [hr] at hfail
    exact absurd hfail (by simp)

/-- Witness for C2: an out-of-stock call on a concrete store fails and
leaves the store unchanged. -/
theorem c2_createOrder_failure_rollback_witness :
    (createOrder Fault.nofault (exState 0)
      { customerId := 1, productIds := [1], status := none }).2 = exState 0 :=
  c2_createOrder_failure_rollback Fault.nofault (exState 0)
    { customerId := 1, productIds := [1], status := none } _ _ rfl (by decide)

/-- Claim C3: starting from any store whose products all have non-negative
stock, any sequence of `create_order`, `cancel_order` and `adjust_stock`
mutations (including ones that fail, and creations hit by storage faults)
preserves non-negative stock for every product. -/
theorem c3_stock_invariant_preserved (ms : List Mut) :
    ∀ st : State, StockInv st → StockInv (ms.foldl applyMut st) := by
  induction ms with
  | nil => intro st h; exact h
  | cons m l ih =>
    intro st h
    have hstep : (m :: l).foldl applyMut st = l.foldl applyMut (applyMut st m) := rfl
    rw [hstep]
    refine ih _ ?_
    cases m with
    | create f inp => exact createOrder_StockInv f st inp h
    | cancel oid => exact cancelOrder_StockInv st oid h
    | adjust pid d => exact adjust_StockInv st pid d h

/-- Witness for C3: a concrete create/cancel/adjust sequence from a concrete
store keeps every stock non-negative. -/
theorem c3_stock_invariant_preserved_witness :
    StockInv (([Mut.create Fault.nofault ⟨1, [1], none⟩,
      Mut.cancel 1, Mut.adjust 1 (-1)] : List Mut).foldl applyMut (exState 1)) :=
  c3_stock_invariant_preserved _ (exState 1) (by unfold StockInv; decide)

/-- Claim C7: `adjust_stock` on an existing product fails with `InvalidStock`
and changes nothing when `stock + delta < 0`; otherwise it succeeds, persists
exactly `stock + delta` for that product, and touches no other product, no
customer and no order. -/
theorem c7_adjust_stock_spec (st : State) (pid : Nat) (delta : Int)
    (p : Product) (hp : getProduct st pid = some p) :
    (p.stock + delta < 0 →
      updateProductStock st pid delta = (⟨false, some ErrKind.invalidStock, none⟩, st)) ∧
    (0 ≤ p.stock + delta →
      (updateProductStock st pid delta).1.success = true ∧
      getProduct (updateProductStock st pid delta).2 pid =
        some { p with stock := p.stock + delta } ∧
      (∀ j, ¬ j = pid → getProduct (updateProductStock st pid delta).2 j = getProduct st j) ∧
      (updateProductStock st pid delta).2.customers = st.customers ∧
      (updateProductStock st pid delta).2.orders = st.orders) := by
  constructor
  · intro hneg
    simp only [updateProductStock, hp]
    rw [if_pos hneg]
  · intro hpos
    have hnlt : ¬ p.stock + delta < 0 := by omega
    have heq : updateProductStock st pid delta =
        (⟨true, none, some { p with stock := p.stock + delta }⟩,
          setStock st pid (p.stock + delta)) := by
      simp only [updateProductStock, hp]
      rw [if_neg hnlt]
    rw [heq]
    refine ⟨rfl, ?_, ?_, rfl, rfl⟩
    · rw [getProduct_setStock, if_pos rfl, hp]
      rfl
    · intro j hj
      rw [getProduct_setStock, if_neg hj]

/-- Witness for C7: adjusting a concrete product with stock 5 by -2 persists
stock 3. -/
theorem c7_adjust_stock_spec_witness :
    0 ≤ (exProduct 5).stock + (-2) ∧
    getProduct ((updateProductStock (exState 5) 1 (-2)).2) 1 =
      some { exProduct 5 with stock := (exProduct 5).stock + (-2) } :=
  ⟨by decide,
    ((c7_adjust_stock_spec (exState 5) 1 (-2) (exProduct 5) (by decide)).2
      (by decide)).2.1⟩

/-- Claim C8: the spec demands that `create_customer` fail with a
duplicate-email `Conflict` exactly when an existing customer has the same
case-normalized email.  Evaluating `CreateCustomer.mutate` shows otherwise:
against a store holding a customer with email "a@x.com", creating "A@x.com"
succeeds (the duplicate check compares the raw input email, yet the row is
stored lowercased, yielding two rows with email "a@x.com"), while creating
the already-lowercase "a@x.com" does report the `Conflict`. -/
theorem c8_duplicate_email_code_behavior :
    (createCustomer (exState 1)
      { name := "Bob", email := "A@x.com", phone := none }).1.success = true ∧
    ((createCustomer (exState 1)
      { name := "Bob", email := "A@x.com", phone := none }).2.customers.map
        (fun c => c.email)) = ["a@x.com", "a@x.com"] ∧
    (createCustomer (exState 1)
      { name := "Bob", email := "a@x.com", phone := none }).1.error =
      some ErrKind.conflict := by
  decide

end CRM

namespace CRM

theorem getCustomer_id (st : State) (i : Nat) (c : Customer)
    (h : getCustomer st i = some c) : c.id = i := by
  simpa using List.find?_some h

theorem updName_id (c : Customer) (nm : Option String) :
    (updName c nm).id = c.id := by
  unfold updName
  by_cases h : optTruthy nm = true
  · rw [if_pos h]
  · rw [if_neg h]

theorem updName_email (c : Customer) (nm : Option String) :
    (updName c nm).email = c.email := by
  unfold updName
  by_cases h : optTruthy nm = true
  · rw [if_pos h]
  · rw [if_neg h]

theorem updName_phone (c : Customer) (nm : Option String) :
    (updName c nm).phone = c.phone := by
  unfold updName
  by_cases h : optTruthy nm = true
  · rw [if_pos h]
  · rw [if_neg h]

theorem updName_name_falsy (c : Customer) (nm : Option String)
    (h : optTruthy nm = false) : (updName c nm).name = c.name := by
  unfold updName
  rw [if_neg (by rw [h]; exact Bool.false_ne_true)]

theorem updPhone_id (c : Customer) (ph : Option String) :
    (updPhone c ph).id = c.id := by
  unfold updPhone
  by_cases h : optTruthy ph = true
  · rw [if_pos h]
  · rw [if_neg h]

theorem updPhone_email (c : Customer) (ph : Option String) :
    (updPhone c ph).email = c.email := by
  unfold updPhone
  by_cases h : optTruthy ph = true
  · rw [if_pos h]
  · rw [if_neg h]

theorem updPhone_name (c : Customer) (ph : Option String) :
    (updPhone c ph).name = c.name := by
  unfold updPhone
  by_cases h : optTruthy ph = true
  · rw [if_pos h]
  · rw [if_neg h]

theorem updPhone_phone_falsy (c : Customer) (ph : Option String)
    (h : optTruthy ph = false) : (updPhone c ph).phone = c.phone := by
  unfold updPhone
  rw [if_neg (by rw [h]; exact Bool.false_ne_true)]

theorem cancelOrder_of_terminal (st : State) (oid : Nat) (o : Order)
    (hg : getOrder st oid = some o)
    (hterm : o.status = "cancelled" ∨ o.status = "delivered") :
    cancelOrder st oid = (⟨false, some ErrKind.invalidTransition, none⟩, st) := by
  rcases hterm with hcs | hcs
  · simp only [cancelOrder, hg]
    rw [if_pos (by rw [hcs]; rfl)]
  · simp only [cancelOrder, hg]
    rw [if_neg (by rw [hcs]; decide), if_pos (by rw [hcs]; rfl)]

theorem dec_then_inc (x : Option Product) :
    (x.map (fun p => { p with stock := p.stock - 1 })).map
      (fun p => { p with stock := p.stock + 1 }) = x := by
  cases x with
  | none => rfl
  | some q =>
    obtain ⟨qi, qn, qd, qp, qs⟩ := q
    have hq : qs - 1 + 1 = qs := by omega
    show some (Product.mk qi qn qd qp (qs - 1 + 1)) = some (Product.mk qi qn qd qp qs)
    rw [hq]

/-- Claim C4: every successful `create_order` persists an order whose
`total_amount` is the exact sum of the referenced products' prices as read at
creation time, one addend per appearance of a product id in `product_ids`,
and whose status defaults to `pending` when no status argument is given. -/
theorem c4_createOrder_total_and_default_status (fault : Fault) (st : State)
    (inp : OrderInput) (r : OrderResponse) (st2 : State) (o : Order)
    (h : createOrder fault st inp = (r, st2)) (hs : r.success = true)
    (ho : r.order = some o) :
    getOrder st2 o.id = some o ∧
    o.totalAmount = (inp.productIds.map (fun pid =>
      ((getProduct st pid).map (fun p => p.price)).getD 0)).sum ∧
    (inp.status = none → o.status = "pending") := by
  rcases createOrder_cases fault st inp r st2 h with ⟨hf, _⟩ | ⟨ps, total, hfp, hr, hst⟩
  · rw [hf] at hs
    exact absurd hs (by simp)
  · rw [hr] at ho
    have ho2 : o = newOrder st inp ps total := by
      have hoo : some (newOrder st inp ps total) = some o := ho
      injection hoo with hoo2
      exact hoo2.symm
    obtain ⟨hmap, hsum, hall⟩ := fetchProducts_ok st inp.productIds ps total hfp
    refine ⟨?_, ?_, ?_⟩
    · rw [hst]
      have horders := getOrder_congr
        (applyDecs { st with orders := newOrder st inp ps total :: st.orders } ps)
        { st with orders := newOrder st inp ps total :: st.orders }
        (applyDecs_orders ps _) o.id
      rw [horders]
      show getOrder { st with orders := newOrder st inp ps total :: st.orders } o.id = some o
      unfold getOrder
      rw [ho2]
      exact List.find?_cons_of_pos _ (by simp)
    · rw [ho2]
      show total = (inp.productIds.map (fun pid =>
        ((getProduct st pid).map (fun p => p.price)).getD 0)).sum
      rw [hsum, ← hmap, List.map_map]
      congr 1
      refine (List.map_congr_left ?_).symm
      intro p hp
      show ((getProduct st p.id).map (fun q => q.price)).getD 0 = p.price
      rw [(hall p hp).1]
      rfl
    · intro hnone
      rw [ho2]
      show defaultStatus inp.status = "pending"
      rw [hnone]
      rfl

/-- Witness for C4: a concrete successful single-product order persists with
total 10 and status pending. -/
theorem c4_createOrder_total_and_default_status_witness :
    getOrder ((createOrder Fault.nofault (exState 1)
        { customerId := 1, productIds := [1], status := none }).2) 1 =
      some { id := 1, customerId := 1, productIds := [1],
             status := "pending", totalAmount := 10 } :=
  (c4_createOrder_total_and_default_status Fault.nofault (exState 1)
    { customerId := 1, productIds := [1], status := none } _ _
    { id := 1, customerId := 1, productIds := [1],
      status := "pending", totalAmount := 10 }
    rfl (by decide) (by decide)).1

/-- Claim C5: cancelling an order whose status is `cancelled` or `delivered`
fails with `InvalidTransition` and changes no state; consequently a second
`cancel_order` on an order just cancelled successfully fails with
`InvalidTransition` and leaves the first cancellation's resulting state
untouched. -/
theorem c5_cancel_terminal_and_second_cancel (st : State) (oid : Nat) :
    (∀ o, getOrder st oid = some o →
      (o.status = "cancelled" ∨ o.status = "delivered") →
      cancelOrder st oid = (⟨false, some ErrKind.invalidTransition, none⟩, st)) ∧
    (∀ r st2, cancelOrder st oid = (r, st2) → r.success = true →
      cancelOrder st2 oid = (⟨false, some ErrKind.invalidTransition, none⟩, st2)) := by
  constructor
  · intro o hg ht
    exact cancelOrder_of_terminal st oid o hg ht
  · intro r st2 h hs
    rcases cancelOrder_cases st oid r st2 h with ⟨hf, _⟩ | ⟨o, hg, hnc, hnd, hr, hst⟩
    · rw [hf] at hs
      exact absurd hs (by simp)
    · refine cancelOrder_of_terminal st2 oid { o with status := "cancelled" } ?_ (Or.inl rfl)
      rw [hst]
      have horders := getOrder_congr
        (restock (setOrderStatus st oid "cancelled") o.productIds)
        (setOrderStatus st oid "cancelled") (restock_orders _ _) oid
      rw [horders, getOrder_setOrderStatus, if_pos rfl, hg]
      rfl

/-- Witness for C5: cancelling a delivered order in a concrete store fails
with `InvalidTransition` and leaves the store unchanged. -/
theorem c5_cancel_terminal_and_second_cancel_witness :
    cancelOrder exDeliveredState 1 =
      (⟨false, some ErrKind.invalidTransition, none⟩, exDeliveredState) :=
  (c5_cancel_terminal_and_second_cancel exDeliveredState 1).1
    { id := 1, customerId := 1, productIds := [1],
      status := "delivered", totalAmount := 10 }
    (by decide) (Or.inr rfl)

/-- Claim C6: a successful `create_order` followed immediately by a successful
`cancel_order` of the created order returns every product to exactly its
stock level from before the creation, and the cancelled order keeps its
frozen `total_amount` (only its status changes). -/
theorem c6_create_cancel_roundtrip (st : State) (inp : OrderInput)
    (r1 : OrderResponse) (st1 : State) (o : Order)
    (h1 : createOrder Fault.nofault st inp = (r1, st1))
    (hs1 : r1.success = true) (ho : r1.order = some o)
    (r2 : OrderResponse) (st2 : State)
    (h2 : cancelOrder st1 o.id = (r2, st2)) (hs2 : r2.success = true) :
    (∀ j, getProduct st2 j = getProduct st j) ∧
    getOrder st2 o.id = some { o with status := "cancelled" } := by
  rcases createOrder_cases Fault.nofault st inp r1 st1 h1 with ⟨hf, _⟩ | ⟨ps, total, hfp, hr, hst⟩
  · rw [hf] at hs1
    exact absurd hs1 (by simp)
  rw [hr] at ho
  have ho2 : o = newOrder st inp ps total := by
    have hoo : some (newOrder st inp ps total) = some o := ho
    injection hoo with hoo2
    exact hoo2.symm
  obtain ⟨hmap, hsum, hall⟩ := fetchProducts_ok st inp.productIds ps total hfp
  have hgo : getOrder st1 o.id = some o := by
    rw [hst]
    have horders := getOrder_congr
      (applyDecs { st with orders := newOrder st inp ps total :: st.orders } ps)
      { st with orders := newOrder st inp ps total :: st.orders }
      (applyDecs_orders ps _) o.id
    rw [horders]
    show getOrder { st with orders := newOrder st inp ps total :: st.orders } o.id = some o
    unfold getOrder
    rw [ho2]
    exact List.find?_cons_of_pos _ (by simp)
  rcases cancelOrder_cases st1 o.id r2 st2 h2 with ⟨hf2, _⟩ | ⟨o1, hg1, hnc, hnd, hr2, hst2⟩
  · rw [hf2] at hs2
    exact absurd hs2 (by simp)
  have ho1 : o1 = o := by
    rw [hgo] at hg1
    injection hg1 with hgg
    exact hgg.symm
  have hprod1 : ∀ j, getProduct st1 j =
      if j ∈ ps.map (fun p => p.id) then
        (getProduct st j).map (fun p => { p with stock := p.stock - 1 })
      else getProduct st j := by
    intro j
    rw [hst]
    have hW : ∀ k, getProduct { st with orders := newOrder st inp ps total :: st.orders } k =
        getProduct st k := fun k => rfl
    have := applyDecs_get { st with orders := newOrder st inp ps total :: st.orders }
      ps { st with orders := newOrder st inp ps total :: st.orders }
      (fun p hp => (hall p hp).1) (fun k => rfl) j
    rw [this]
    rfl
  constructor
  · intro j
    rw [hst2, ho1]
    have hopids : o.productIds = dedupFirst (ps.map (fun p => p.id)) := by
      rw [ho2]
      rfl
    rw [hopids, restock_get (dedupFirst (ps.map (fun p => p.id))) _
      (nodup_dedupFirst _) j]
    have hps : ∀ k, getProduct (setOrderStatus st1 o.id "cancelled") k = getProduct st1 k :=
      fun k => getProduct_congr _ _ (setOrderStatus_products st1 o.id "cancelled") k
    by_cases hj : j ∈ ps.map (fun p => p.id)
    · rw [if_pos ((mem_dedupFirst _ j).mpr hj), hps, hprod1 j, if_pos hj, dec_then_inc]
    · rw [if_neg (fun hm => hj ((mem_dedupFirst _ j).mp hm)), hps, hprod1 j, if_neg hj]
  · rw [hst2, ho1]
    have horders := getOrder_congr
      (restock (setOrderStatus st1 o.id "cancelled") o.productIds)
      (setOrderStatus st1 o.id "cancelled") (restock_orders _ _) o.id
    rw [horders, getOrder_setOrderStatus, if_pos rfl, hgo]
    rfl

/-- Witness for C6: a concrete create-then-cancel round trip restores the
product's stock and re-reads the order as cancelled with its total intact. -/
theorem c6_create_cancel_roundtrip_witness :
    getProduct ((cancelOrder ((createOrder Fault.nofault (exState 1)
        { customerId := 1, productIds := [1], status := none }).2) 1).2) 1 =
      getProduct (exState 1) 1 ∧
    getOrder ((cancelOrder ((createOrder Fault.nofault (exState 1)
        { customerId := 1, productIds := [1], status := none }).2) 1).2) 1 =
      some { id := 1, customerId := 1, productIds := [1],
             status := "cancelled", totalAmount := 10 } := by
  have h := c6_create_cancel_roundtrip (exState 1)
    { customerId := 1, productIds := [1], status := none } _ _
    { id := 1, customerId := 1, productIds := [1],
      status := "pending", totalAmount := 10 }
    rfl (by decide) (by decide) _ _ rfl (by decide)
  exact ⟨h.1 1, h.2⟩

/-- Claim C10: `update_customer` can change only the fetched customer's name
and phone: its id and email are untouched, every other customer is read back
unchanged, products and orders are untouched, and a name or phone argument
that is absent or empty (Python-falsy) leaves the corresponding field
unchanged. -/
theorem c10_updateCustomer_frame (st : State) (cid : Nat) (nm ph : Option String)
    (r : CustomerResponse) (st2 : State)
    (h : updateCustomer st cid nm ph = (r, st2)) :
    st2.products = st.products ∧
    st2.orders = st.orders ∧
    (∀ j, ¬ j = cid → getCustomer st2 j = getCustomer st j) ∧
    (∀ c2, getCustomer st2 cid = some c2 →
      ∃ c, getCustomer st cid = some c ∧ c2.id = c.id ∧ c2.email = c.email ∧
        (optTruthy nm = false → c2.name = c.name) ∧
        (optTruthy ph = false → c2.phone = c.phone)) := by
  cases hg : getCustomer st cid with
  | none =>
    simp only [updateCustomer, hg] at h
    injection h with h1 h2
    subst h2
    refine ⟨rfl, rfl, fun j _ => rfl, ?_⟩
    intro c2 hc2
    rw [hg] at hc2
    exact absurd hc2 (by simp)
  | some c =>
    simp only [updateCustomer, hg] at h
    by_cases hv1 : (optTruthy nm && !validate_name (nm.getD "")) = true
    · rw [if_pos hv1] at h
      injection h with h1 h2
      subst h2
      refine ⟨rfl, rfl, fun j _ => rfl, ?_⟩
      intro c2 hc2
      rw [hg] at hc2
      injection hc2 with hcc
      subst hcc
      exact ⟨c, rfl, rfl, rfl, fun _ => rfl, fun _ => rfl⟩
    · rw [if_neg hv1] at h
      by_cases hv2 : (optTruthy ph && !validate_phone (ph.getD "")) = true
      · rw [if_pos hv2] at h
        injection h with h1 h2
        subst h2
        refine ⟨rfl, rfl, fun j _ => rfl, ?_⟩
        intro c2 hc2
        rw [hg] at hc2
        injection hc2 with hcc
        subst hcc
        exact ⟨c, rfl, rfl, rfl, fun _ => rfl, fun _ => rfl⟩
      · rw [if_neg hv2] at h
        injection h with h1 h2
        subst h2
        have hcid : (updPhone (updName c nm) ph).id = cid := by
          rw [updPhone_id, updName_id]
          exact getCustomer_id st cid c hg
        refine ⟨rfl, rfl, ?_, ?_⟩
        · intro j hj
          rw [getCustomer_saveCustomer st cid j _ hcid, if_neg hj]
        · intro c2 hc2
          rw [getCustomer_saveCustomer st cid cid _ hcid, if_pos rfl, hg] at hc2
          have hc2b : some (updPhone (updName c nm) ph) = some c2 := hc2
          injection hc2b with hcc
          subst hcc
          refine ⟨c, rfl, ?_, ?_, ?_, ?_⟩
          · rw [updPhone_id, updName_id]
          · rw [updPhone_email, updName_email]
          · intro hnm
            rw [updPhone_name, updName_name_falsy c nm hnm]
          · intro hph
            rw [updPhone_phone_falsy _ ph hph, updName_phone]

/-- Witness for C10: updating customer 1's name in a concrete two-customer
store leaves products and the other customer untouched. -/
theorem c10_updateCustomer_frame_witness :
    ((updateCustomer exTwoCustState 1 (some "Bobby") none).2).products =
      exTwoCustState.products ∧
    getCustomer ((updateCustomer exTwoCustState 1 (some "Bobby") none).2) 2 =
      getCustomer exTwoCustState 2 := by
  have h := c10_updateCustomer_frame exTwoCustState 1 (some "Bobby") none _ _ rfl
  exact ⟨h.1, h.2.2.1 2 (by decide)⟩

end CRM
